import Mathlib

/-!
Verification development for a discrete-event semiconductor-tool flow
simulator (Python/simpy sources: `tool_simulator.py`,
`anylogic_flow_units.py`, `semiconductor_tool_simulator.py`,
`semiconductor_flow_simulator.py`).

The Python processes suspend only at simpy `yield` points
(`request`, `timeout`, `any_of`), so observable simulation states are
exactly the states at those suspension points.  All definitions below are
shallow embeddings of the corresponding Python code: pure functions become
Lean functions, the in-process mutable state of a unit becomes an explicit
state record threaded through the operations, and the scheduler's choices
(which competing request triggers, and when) become an explicit oracle
argument.  Times and durations are rationals.
-/

namespace ToolSim

/-! ## Resource (shallow embedding of `simpy.Resource`)

`tool_simulator.py` (`MetalTool.__init__`, lines 10-24) and
`semiconductor_tool_simulator.py` (`SemiconductorToolUnit.__init__`,
lines 42-57) create `simpy.Resource(env, capacity=...)` objects.  A simpy
resource keeps a `users` list (current holders, granted requests) and a
waiting queue; a request is granted immediately when `len(users) <
capacity` and queued otherwise; `release` removes the request from
`users` and then grants queued requests while slots remain free.  Tokens
(`Nat`) stand for request objects. -/

structure Resource where
  capacity : Nat
  users : List Nat
  pending : List Nat
deriving Repr, DecidableEq

def Resource.init (c : Nat) : Resource :=
  { capacity := c, users := [], pending := [] }

/-- Operation `request`: grant immediately if a slot is free, otherwise queue. -/
def Resource.request (r : Resource) (tok : Nat) : Resource :=
  if r.users.length < r.capacity then
    { r with users := r.users ++ [tok] }
  else
    { r with pending := r.pending ++ [tok] }

/-- After a release, simpy grants waiting requests while slots remain. -/
def fillFromPending (cap : Nat) (users : List Nat) :
    List Nat → List Nat × List Nat
  | [] => (users, [])
  | q :: qs =>
      if users.length < cap then fillFromPending cap (users ++ [q]) qs
      else (users, q :: qs)

/-- Operation `release`: drop the holder token, then admit queued requests. -/
def Resource.release (r : Resource) (tok : Nat) : Resource :=
  let users' := r.users.erase tok
  let p := fillFromPending r.capacity users' r.pending
  { capacity := r.capacity, users := p.1, pending := p.2 }

inductive ResOp where
  | req (tok : Nat)
  | rel (tok : Nat)
deriving Repr, DecidableEq

def Resource.applyOp (r : Resource) : ResOp → Resource
  | .req tok => r.request tok
  | .rel tok => r.release tok

def Resource.run (r : Resource) (ops : List ResOp) : Resource :=
  ops.foldl Resource.applyOp r

/-! ## MetalTool shared resources (`tool_simulator.py`, lines 10-24)

`MetalTool.__init__` builds one shared capacity-1 `simpy.Resource` per
unique physical part name and maps every unit id to the shared resources
of its parts, so two station groups listing the same part name refer to
one and the same resource object.  The system state is the map from part
name to its (single, shared) resource state. -/

abbrev PartName := String
abbrev UnitId := String

/-- The `unit_capability` input is a list of dicts `{unit_id: [part_names]}`. -/
abbrev UnitCapability := List (List (UnitId × List PartName))

/-- Lookup `unit_to_parts[unit_id]`: the dict assignment in the loop keeps the
last entry for a repeated unit id (`defaultdict(list)` default `[]`). -/
def unitToParts (cap : UnitCapability) (u : UnitId) : List PartName :=
  cap.flatten.foldl (fun acc e => if e.1 = u then e.2 else acc) []

/-- Every shared resource is created with `capacity=1`. -/
def metalToolInit : PartName → Resource := fun _ => Resource.init 1

inductive SysOp where
  | req (part : PartName) (tok : Nat)
  | rel (part : PartName) (tok : Nat)
deriving Repr, DecidableEq

def sysApply (st : PartName → Resource) : SysOp → (PartName → Resource)
  | .req part tok => fun p => if p = part then (st p).request tok else st p
  | .rel part tok => fun p => if p = part then (st p).release tok else st p

def sysRun (st : PartName → Resource) (ops : List SysOp) :
    PartName → Resource :=
  ops.foldl sysApply st

/-! ## Hold-and-wait wafer process (`tool_simulator.py`, lines 27-171)

`wafer_process` filters out transfer steps, sorts the remaining flow
steps by `int(seq_id)` (Python `sorted` is stable), and walks them in
order.  At each step it issues one request per physical part backing the
step's unit together with a 1000-time-unit timeout and yields
`env.any_of` on all of them.  The scheduler's resolution of that race is
modelled by an oracle `Outcome` per iteration:

* `granted trig w`: `any_of` returned after waiting `w` because the
  requests with indices `trig` (into the unit's part list) triggered,
  all at the same instant (simpy resolves a condition within one
  scheduler step, so every request in the result triggered at the
  current time).  Realisable outcomes have `trig ≠ []` and `w < 1000`.
* `timeout also`: the 1000-unit timeout fired; `also` are indices of
  requests that happened to trigger at that same instant (the code
  checks `timeout_event in result` first, so such grants are ignored).

The code then adopts the first triggered request in request order
(`for req in requests: if req in result`) -- the minimal index in
`trig` -- and cancels only the requests with `not req.triggered`;
triggered requests other than the adopted one are neither used nor
released.  The trace of grant events (`acq`) and releases (`rel`)
records exactly which `simpy` resource slots the wafer takes and frees.
Observable instants are the states between loop iterations (every
iteration ends at a `yield`). -/

structure FlowStep where
  seq_id : Int
  unit_id : UnitId
  duration_min : ℚ
  transfer : Bool
deriving Repr, DecidableEq

/-- Stable insertion of `a` into `l` before the first strictly larger
element; `isortBy` below is then the stable sort by `int(seq_id)`, and
any stable sort agrees with Python's `sorted(..., key=...)`. -/
def insBefore (lt : FlowStep → FlowStep → Bool) (a : FlowStep) :
    List FlowStep → List FlowStep
  | [] => [a]
  | b :: l => if lt b a then b :: insBefore lt a l else a :: b :: l

def isortBy (lt : FlowStep → FlowStep → Bool) : List FlowStep → List FlowStep
  | [] => []
  | a :: l => insBefore lt a (isortBy lt l)

/-- Python `sorted([s for s in unit_flow if not s.get("transfer")], key=int(seq_id))`. -/
def sortedFlow (unit_flow : List FlowStep) : List FlowStep :=
  isortBy (fun a b => decide (a.seq_id < b.seq_id))
    (unit_flow.filter fun s => !s.transfer)

inductive Outcome where
  | timeout (also : List Nat)
  | granted (trig : List Nat) (wait : ℚ)
deriving Repr, DecidableEq

/-- One `wafer_log` entry (lines 131-138 / 152-159): unit and seq id of the
flow step named in the record, the part held, and the interval. -/
structure LogRec where
  unit_id : UnitId
  seq_id : Int
  part : PartName
  start : ℚ
  fin : ℚ
deriving Repr, DecidableEq

inductive Ev where
  | acq (part : PartName) (t : ℚ)
  | rel (part : PartName) (t : ℚ)
deriving Repr, DecidableEq

/-- State of one wafer's process at an observable instant. -/
structure WState where
  now : ℚ
  cur : Option PartName
  rst : ℚ
  log : List LogRec
  evs : List Ev
  adopts : List (PartName × ℚ)
  ended : Bool
  endTime : Option ℚ
deriving Repr, DecidableEq

/-- First request (in request order) present in the `any_of` result:
the minimal index among the triggered ones. -/
def minIdx : List Nat → Option Nat
  | [] => none
  | a :: l =>
      some (match minIdx l with
            | none => a
            | some b => min a b)

/-- Grant events for every request index that triggered: each such
request occupies a slot of its resource from instant `t` on. -/
def acqEvents (parts : List PartName) (trig : List Nat) (t : ℚ) : List Ev :=
  (trig.filterMap fun i => parts[i]?).map fun p => Ev.acq p t

/-- One iteration of the `for idx, step in enumerate(sorted_flow)` loop.
`prev` is the preceding element of `sorted_flow` (the log entry written
on a successful hand-off names `sorted_flow[idx-1]`). -/
def wstep (u2p : UnitId → List PartName) (prev : Option FlowStep)
    (step : FlowStep) (oc : Outcome) (st : WState) : WState :=
  if st.ended then st
  else
    let parts := u2p step.unit_id
    if parts = [] then st    -- "No tools available ... ", continue
    else
      match st.cur with
      | none =>
          -- first acquisition (lines 54-89)
          match oc with
          | .timeout also =>
              -- cancel untriggered requests, set end time, return
              let t := st.now + 1000
              { st with now := t, evs := st.evs ++ acqEvents parts also t,
                        ended := true, endTime := some t }
          | .granted trig w =>
              let t := st.now + w
              match minIdx trig with
              | none =>
                  -- "Error: No request was acquired", return
                  { st with now := t, evs := st.evs ++ acqEvents parts trig t,
                            ended := true, endTime := some t }
              | some i =>
                  let p := (parts[i]?).getD ""
                  -- adopt request i; then `yield env.timeout(duration_min)`
                  { st with now := t + step.duration_min,
                            cur := some p, rst := t,
                            evs := st.evs ++ acqEvents parts trig t,
                            adopts := st.adopts ++ [(p, t)] }
      | some c =>
          -- hold-and-wait step (lines 90-148)
          match oc with
          | .timeout also =>
              -- cancel untriggered requests, keep current grant,
              -- `yield env.timeout(step["duration_min"])`, continue
              let t := st.now + 1000
              { st with now := t + step.duration_min,
                        evs := st.evs ++ acqEvents parts also t }
          | .granted trig w =>
              let t := st.now + w
              match minIdx trig with
              | none =>
                  -- "Error: No next request was acquired": process on
                  -- the current resource and continue
                  { st with now := t + step.duration_min,
                            evs := st.evs ++ acqEvents parts trig t }
              | some i =>
                  let p := (parts[i]?).getD ""
                  let pr : LogRec :=
                    { unit_id := (prev.map (·.unit_id)).getD "",
                      seq_id := (prev.map (·.seq_id)).getD 0,
                      part := c, start := st.rst, fin := t }
                  { st with now := t + step.duration_min,
                            cur := some p, rst := t,
                            log := st.log ++ [pr],
                            evs := st.evs ++ acqEvents parts trig t
                                   ++ [Ev.rel c t],
                            adopts := st.adopts ++ [(p, t)] }

/-- The loop over `sorted_flow`, one oracle outcome per iteration. -/
def wloop (u2p : UnitId → List PartName) :
    List (FlowStep × Outcome) → Option FlowStep → WState → WState
  | [], _, st => st
  | (s, oc) :: rest, prev, st => wloop u2p rest (some s) (wstep u2p prev s oc st)

def wInit (t0 : ℚ) : WState :=
  { now := t0, cur := none, rst := 0, log := [], evs := [],
    adopts := [], ended := false, endTime := none }

/-- Lines 150-171: after the loop, log the final interval, release the
held resource, and set the wafer's end time to the current time. -/
def wFinalize (sf : List FlowStep) (st : WState) : WState :=
  if st.ended then st
  else
    match st.cur with
    | none => { st with endTime := some st.now }
    | some c =>
        match sf.getLast? with
        | none => { st with endTime := some st.now }
        | some last =>
            { st with
                log := st.log ++
                  [{ unit_id := last.unit_id, seq_id := last.seq_id,
                     part := c, start := st.rst, fin := st.now }],
                evs := st.evs ++ [Ev.rel c st.now],
                endTime := some st.now }

/-- A whole run of `wafer_process` for one wafer. -/
def waferRun (u2p : UnitId → List PartName) (unit_flow : List FlowStep)
    (ocs : List Outcome) (t0 : ℚ) : WState :=
  let sf := sortedFlow unit_flow
  if sf = [] then { wInit t0 with ended := true, endTime := some t0 }
  else wFinalize sf (wloop u2p (sf.zip ocs) none (wInit t0))

/-- The observable state after the first `n` loop iterations. -/
def waferRunPartial (u2p : UnitId → List PartName)
    (unit_flow : List FlowStep) (ocs : List Outcome) (t0 : ℚ) (n : Nat) :
    WState :=
  wloop u2p (((sortedFlow unit_flow).zip ocs).take n) none (wInit t0)

def acquireCount (evs : List Ev) : Nat :=
  (evs.filter fun e => match e with | .acq _ _ => true | .rel _ _ => false).length

def releaseCount (evs : List Ev) : Nat :=
  (evs.filter fun e => match e with | .acq _ _ => false | .rel _ _ => true).length

def heldStep (h : List PartName) : Ev → List PartName
  | .acq p _ => h ++ [p]
  | .rel p _ => h.erase p

/-- Multiset of resource slots held after a (chronological) trace of
grant events. -/
def heldParts (evs : List Ev) : List PartName :=
  evs.foldl heldStep []

/-! ### Saturated-downstream runs (every hold-and-wait race times out) -/

/-- Time consumed by one timed-out iteration: the 1000-unit bounded wait
plus `yield env.timeout(step["duration_min"])` for the attempted step. -/
def satSpan (steps : List FlowStep) : ℚ :=
  (steps.map fun s => 1000 + s.duration_min).sum

/-! ### Clean hand-off runs (every race won by a single grant) -/

/-- One oracle iteration in which exactly one request (index `idx` into
the unit's part list) triggers after waiting `wait`. -/
structure GStep where
  step : FlowStep
  idx : Nat
  wait : ℚ
deriving Repr, DecidableEq

def gPart (u2p : UnitId → List PartName) (g : GStep) : PartName :=
  ((u2p g.step.unit_id)[g.idx]?).getD ""

def gOutcome (g : GStep) : Outcome := .granted [g.idx] g.wait

/-- Adoption times of a clean run: each grant arrives `wait` after the
preceding step's processing interval ends. -/
def gAdopts (u2p : UnitId → List PartName) (t : ℚ) :
    List GStep → List (PartName × ℚ)
  | [] => []
  | g :: gs =>
      (gPart u2p g, t + g.wait) ::
        gAdopts u2p (t + g.wait + g.step.duration_min) gs

/-- Log records of a clean run: one per hand-off, naming the previous
flow step and spanning from the previous adoption to the new grant. -/
def gLog (u2p : UnitId → List PartName) (prev : FlowStep) (c : PartName)
    (r t : ℚ) : List GStep → List LogRec
  | [] => []
  | g :: gs =>
      { unit_id := prev.unit_id, seq_id := prev.seq_id, part := c,
        start := r, fin := t + g.wait } ::
        gLog u2p g.step (gPart u2p g) (t + g.wait)
          (t + g.wait + g.step.duration_min) gs

/-- Grant events of a clean run: each hand-off acquires the next part
and releases the previous one at the same instant. -/
def gEvs (u2p : UnitId → List PartName) (c : PartName) (t : ℚ) :
    List GStep → List Ev
  | [] => []
  | g :: gs =>
      .acq (gPart u2p g) (t + g.wait) :: .rel c (t + g.wait) ::
        gEvs u2p (gPart u2p g) (t + g.wait + g.step.duration_min) gs

def gEnd (t : ℚ) : List GStep → ℚ
  | [] => t
  | g :: gs => gEnd (t + g.wait + g.step.duration_min) gs

def gCur (u2p : UnitId → List PartName) (c : PartName) : List GStep → PartName
  | [] => c
  | g :: gs => gCur u2p (gPart u2p g) gs

def gRst (r t : ℚ) : List GStep → ℚ
  | [] => r
  | g :: gs => gRst (t + g.wait) (t + g.wait + g.step.duration_min) gs

/-! ### Concrete configurations -/

/-- Three non-transfer flow steps; units `B` and `C` are backed by two
physical parts each, unit `A` by one. -/
def cfgFlow1 : List FlowStep :=
  [⟨1, "A", 7, false⟩, ⟨2, "B", 11, false⟩, ⟨3, "C", 13, false⟩]

def u2pLeak : UnitId → List PartName := fun u =>
  if u = "A" then ["A.01"]
  else if u = "B" then ["B.01", "B.02"]
  else if u = "C" then ["C.01", "C.02"]
  else []

/-- Oracle: the first-step race is won by the single `A` part; at each
hand-off both idle parts of the next unit trigger simultaneously
(`simpy` grants a request to a free capacity-1 resource at issue time,
so with both parts idle both requests trigger in the same instant). -/
def ocsLeak : List Outcome :=
  [.granted [0] 0, .granted [0, 1] 0, .granted [0, 1] 0]

/-- Oracle: the first station is acquired at once; every later next-
station race times out (permanently saturated downstream). -/
def ocsSat : List Outcome :=
  [.granted [0] 0, .timeout [], .timeout []]

/-! ## Queue flow unit (`anylogic_flow_units.py`, lines 106-169)

`Queue.receive_agent` increments `agents_entered`, then -- if
`len(self.queue) < self.capacity` (`capacity` defaults to
`float('inf')`, modelled as `none`) -- inserts the agent (in priority
order when a `priority_func` is given, inserting before the first
strictly larger key, else FIFO append) and immediately tries to forward
the queue head (`_try_forward_agent`: if the queue and the output port
are both non-empty, pop the head, increment `agents_exited`, and send
it).  When the buffer is full the code only logs a warning and drops
the agent: the `Queue` object has **no** rejection counter; `dropped`
and `forwarded` below are ghost fields recording the drops and the
agents handed to `send_agent`, which the Python object does not store.
`receive_agent` runs atomically up to its trailing `yield`, so states
between calls are the observable ones. -/

structure QueueU where
  capacity : Option Nat
  priorityOf : Option (String → Int)
  hasOutput : Bool
  agents_entered : Nat
  agents_exited : Nat
  buf : List (String × Int)
  forwarded : List String
  dropped : Nat

def QueueU.init (cap : Option Nat) (prio : Option (String → Int))
    (hasOut : Bool) : QueueU :=
  { capacity := cap, priorityOf := prio, hasOutput := hasOut,
    agents_entered := 0, agents_exited := 0, buf := [],
    forwarded := [], dropped := 0 }

/-- Priority insertion: before the first entry with a strictly larger
key (`if priority < stored_priority: insert`), else append. -/
def pqInsert (a : String) (p : Int) :
    List (String × Int) → List (String × Int)
  | [] => [(a, p)]
  | (b, q) :: l => if p < q then (a, p) :: (b, q) :: l
                   else (b, q) :: pqInsert a p l

/-- Check `len(self.queue) < self.capacity` (true for `float('inf')`). -/
def capOk (c : Option Nat) (n : Nat) : Bool :=
  match c with
  | none => true
  | some k => n < k

def QueueU.tryForward (q : QueueU) : QueueU :=
  match q.buf with
  | [] => q
  | (a, _) :: rest =>
      if q.hasOutput then
        { q with buf := rest, agents_exited := q.agents_exited + 1,
                 forwarded := q.forwarded ++ [a] }
      else q

/-- Buffer insertion: priority order when a `priority_func` is given,
FIFO append otherwise. -/
def QueueU.insertAgent (q : QueueU) (a : String) : QueueU :=
  match q.priorityOf with
  | some f => { q with buf := pqInsert a (f a) q.buf }
  | none => { q with buf := q.buf ++ [(a, 0)] }

def QueueU.receive (q : QueueU) (a : String) : QueueU :=
  let q1 := { q with agents_entered := q.agents_entered + 1 }
  if capOk q1.capacity q1.buf.length then (q1.insertAgent a).tryForward
  else { q1 with dropped := q1.dropped + 1 }

def QueueU.run (q : QueueU) (arrivals : List String) : QueueU :=
  arrivals.foldl QueueU.receive q

/-- Dict returned by `Queue.get_statistics` (lines 52-59 and 162-169): the returned dict
has entered/exited/population plus queue length, capacity and
utilization -- and no rejection entry of any kind. -/
structure QueueStats where
  agents_entered : Nat
  agents_exited : Nat
  current_population : Int
  current_queue_length : Nat
  capacity : Option Nat
  utilization : ℚ
deriving Repr, DecidableEq

def QueueU.getStatistics (q : QueueU) : QueueStats :=
  { agents_entered := q.agents_entered,
    agents_exited := q.agents_exited,
    current_population := (q.agents_entered : Int) - q.agents_exited,
    current_queue_length := q.buf.length,
    capacity := q.capacity,
    utilization := match q.capacity with
                   | none => 0
                   | some k => (q.buf.length : ℚ) / k }

/-! ## SelectOutput flow unit (`anylogic_flow_units.py`, lines 443-481)

`receive_agent` increments `agents_entered`, evaluates the condition,
routes the agent to the connected true/false output (only a warning
when that output is missing), and increments `agents_exited` before its
trailing `yield`; the block holds no agents between calls. -/

structure SelectOutputU where
  hasTrue : Bool
  hasFalse : Bool
  agents_entered : Nat
  agents_exited : Nat
  forwardedTrue : List String
  forwardedFalse : List String

def SelectOutputU.init (ht hf : Bool) : SelectOutputU :=
  { hasTrue := ht, hasFalse := hf, agents_entered := 0,
    agents_exited := 0, forwardedTrue := [], forwardedFalse := [] }

def SelectOutputU.receive (s : SelectOutputU) (a : String) (cond : Bool) :
    SelectOutputU :=
  let s1 := { s with agents_entered := s.agents_entered + 1 }
  let s2 :=
    if cond then
      if s1.hasTrue then
        { s1 with forwardedTrue := s1.forwardedTrue ++ [a] }
      else s1
    else
      if s1.hasFalse then
        { s1 with forwardedFalse := s1.forwardedFalse ++ [a] }
      else s1
  { s2 with agents_exited := s2.agents_exited + 1 }

def SelectOutputU.run (s : SelectOutputU) (arrivals : List (String × Bool)) :
    SelectOutputU :=
  arrivals.foldl (fun st ab => st.receive ab.1 ab.2) s

/-! ## Service flow unit (`anylogic_flow_units.py`, lines 284-343)

`Service.receive_agent` increments `agents_entered`; when
`len(self.queue) >= self.queue_capacity` it increments the
`rejected_agents` counter, logs a warning and returns (the agent is
dropped); otherwise it records the queue-entry time, inserts the agent
into the queue (priority order or FIFO as for `Queue`) and falls into
`_service_process`, whose first suspension point is
`self.resource.request()`.  The model covers `receive_agent` up to that
first suspension; the outcome constructor says which branch ran. -/

structure ServiceU where
  queue_capacity : Option Nat
  priorityOf : Option (String → Int)
  agents_entered : Nat
  rejected_agents : Nat
  buf : List (String × Int)
  queueStart : List (String × ℚ)

/-- Check `len(self.queue) >= self.queue_capacity` (false for `float('inf')`). -/
def capReached (c : Option Nat) (n : Nat) : Bool :=
  match c with
  | none => false
  | some k => n ≥ k

inductive ServiceRecv where
  | rejected (s : ServiceU)
  | queued (s : ServiceU)

def ServiceU.receive (s : ServiceU) (a : String) (now : ℚ) : ServiceRecv :=
  let s1 := { s with agents_entered := s.agents_entered + 1 }
  if capReached s1.queue_capacity s1.buf.length then
    .rejected { s1 with rejected_agents := s1.rejected_agents + 1 }
  else
    let s2 := { s1 with queueStart := s1.queueStart ++ [(a, now)] }
    .queued (match s2.priorityOf with
             | some f => { s2 with buf := pqInsert a (f a) s2.buf }
             | none => { s2 with buf := s2.buf ++ [(a, 0)] })

/-- A FIFO queue of capacity 1 that is already full. -/
def qFull : QueueU :=
  { capacity := some 1, priorityOf := none, hasOutput := true,
    agents_entered := 1, agents_exited := 0, buf := [("W1", 0)],
    forwarded := [], dropped := 0 }

/-- A service whose bounded queue (capacity 0) is already full. -/
def sFull : ServiceU :=
  { queue_capacity := some 0, priorityOf := none, agents_entered := 3,
    rejected_agents := 0, buf := [], queueStart := [] }

/-! ## SemiconductorToolUnit (`semiconductor_tool_simulator.py`, lines 39-143)

A unit keeps the flow steps whose `unit_id` matches it (keyed by
`seq_id`), a list of capacity-1 resources with a round-robin index, and
entered/exited counters.  `receive_agent` looks up the step whose
`int(seq_id)` equals the wafer's `current_seq_id`; if none exists it
logs a warning, advances `current_seq_id`, bumps both counters and
forwards the wafer; a zero-mean step is logged as instantaneous with
resource `"N/A"` and forwarded; otherwise the unit picks the next
round-robin resource, draws a processing time and suspends on
`resource.request()`.  `sample` stands for the draw
`np.random.normal(duration_mean, duration_std)` (with `duration_std =
0` the draw equals `duration_mean` deterministically). -/

structure ToolStep where
  seq_id : Int
  unit_id : UnitId
  duration_mean : ℚ
  duration_std : ℚ
  duration_min : ℚ
deriving Repr, DecidableEq

structure HistRec where
  unit_id : UnitId
  seq_id : Int
  resource_id : String
  start : ℚ
  fin : ℚ
deriving Repr, DecidableEq

structure WaferA where
  id : String
  current_seq_id : Int
  history : List HistRec
deriving Repr, DecidableEq

structure ToolUnitU where
  unit_id : UnitId
  steps : List ToolStep
  resource_names : List PartName
  resource_index : Nat
  agents_entered : Nat
  agents_exited : Nat
deriving Repr, DecidableEq

/-- Method `get_next_resource`: round-robin unless there is a single resource. -/
def ToolUnitU.getNextResource (u : ToolUnitU) : PartName × ToolUnitU :=
  if u.resource_names.length = 1 then (u.resource_names.getD 0 "", u)
  else
    (u.resource_names.getD u.resource_index "",
     { u with resource_index :=
         (u.resource_index + 1) % u.resource_names.length })

/-- The step registered for a sequence position (`int(seq_id) ==
agent.current_seq_id` over the unit's step dict). -/
def ToolUnitU.findStep (u : ToolUnitU) (seq : Int) : Option ToolStep :=
  u.steps.find? fun s => s.seq_id == seq

/-- Method `get_processing_time` (lines 68-82): `0.0` when no step is
registered or the mean is zero, otherwise
`max(duration_min, np.random.normal(mean, std))` -- the clamp is
applied whether or not `duration_std` is zero. -/
def ToolUnitU.getProcessingTime (u : ToolUnitU) (seq : Int) (sample : ℚ) :
    ℚ :=
  match u.findStep seq with
  | none => 0
  | some step =>
      if step.duration_mean = 0 then 0 else max step.duration_min sample

/-- Outcome of `receive_agent` up to its first suspension point.
`missingRoute` and `instantStep` end with `send_agent(agent)` (the
wafer is forwarded downstream); `seizeResource` suspends inside
`with resource.request()`. -/
inductive ToolRecv where
  | missingRoute (u : ToolUnitU) (a : WaferA)
  | instantStep (u : ToolUnitU) (a : WaferA)
  | seizeResource (u : ToolUnitU) (a : WaferA) (resource : PartName)
      (procTime : ℚ)
deriving Repr, DecidableEq

def ToolUnitU.receive (u : ToolUnitU) (a : WaferA) (now sample : ℚ) :
    ToolRecv :=
  let u1 := { u with agents_entered := u.agents_entered + 1 }
  match u1.findStep a.current_seq_id with
  | none =>
      .missingRoute
        { u1 with agents_exited := u1.agents_exited + 1 }
        { a with current_seq_id := a.current_seq_id + 1 }
  | some step =>
      if step.duration_mean = 0 then
        .instantStep
          { u1 with agents_exited := u1.agents_exited + 1 }
          { a with current_seq_id := a.current_seq_id + 1,
                   history := a.history ++
                     [{ unit_id := u1.unit_id, seq_id := step.seq_id,
                        resource_id := "N/A", start := now, fin := now }] }
      else
        let rr := u1.getNextResource
        .seizeResource rr.2 a rr.1
          (u1.getProcessingTime a.current_seq_id sample)

/-- A unit registering only sequence position 1. -/
def uEx : ToolUnitU :=
  { unit_id := "PM1", steps := [⟨1, "PM1", 30, 2, 20⟩],
    resource_names := ["PM1.01"], resource_index := 0,
    agents_entered := 0, agents_exited := 0 }

/-- A wafer whose sequence pointer (5) matches no step of `uEx`. -/
def wEx : WaferA := { id := "LOT_000_W00", current_seq_id := 5, history := [] }

/-! ## Per-step processing durations

`FlowController._process_wafer_flow` (`semiconductor_flow_simulator.py`
lines 93-98) computes the processing time as
`max(duration_min, np.random.normal(mean, std))` when
`duration_std > 0` and exactly `duration_mean` otherwise.  The
hold-and-wait process of `tool_simulator.py` instead always advances by
`step["duration_min"]` (lines 105, 117, 148; visible as
`duration_min` in `wstep`), and `SemiconductorToolUnit` clamps even
when the deviation is zero (`getProcessingTime` above). -/

def flowControllerDuration (mean std dmin sample : ℚ) : ℚ :=
  if std > 0 then max dmin sample else mean

/-- The duration rule as the claim states it (for refinement
comparison): with a positive standard deviation, the normal draw
clamped below at the configured minimum; otherwise exactly the mean. -/
def claimedDuration (mean std dmin sample : ℚ) : ℚ :=
  if std > 0 then max dmin sample else mean

/-- A unit whose single step has mean 5, deviation 0 and minimum 10. -/
def uClamp : ToolUnitU :=
  { unit_id := "U", steps := [⟨1, "U", 5, 0, 10⟩],
    resource_names := ["U.01"], resource_index := 0,
    agents_entered := 0, agents_exited := 0 }

/-! ## ResourcePool service discipline (`anylogic_flow_units.py`,
lines 223-273)

`ResourcePool.receive_agent` requests the internal `simpy.Resource`
(FIFO, no priority here), waits for the grant, holds it for the service
time and releases it; on a release simpy grants the head of the waiting
queue within the same scheduler step, so a waiting agent starts service
exactly when a slot frees.  For a deterministic service time the whole
system is an event-driven recurrence over two event kinds -- an agent
arrival (its `receive_agent` call) and a service completion -- processed
in time order; `rpSim` below is that event loop (fuel-bounded; the fuel
exceeds the event count in every use).  Each record is
`(agent, service_start, service_end)`. -/

structure RPState where
  now : ℚ
  inService : List (String × ℚ × ℚ)
  waiting : List String
  records : List (String × ℚ × ℚ)
deriving Repr, DecidableEq

def minFinishTime : List (String × ℚ × ℚ) → Option ℚ
  | [] => none
  | e :: l =>
      match minFinishTime l with
      | none => some e.2.2
      | some m => some (min e.2.2 m)

/-- Remove the first in-service entry finishing at `t` (the process
whose service timeout fires at `t`). -/
def removeFinished (t : ℚ) :
    List (String × ℚ × ℚ) → Option (String × ℚ × ℚ) × List (String × ℚ × ℚ)
  | [] => (none, [])
  | e :: l =>
      if e.2.2 = t then (some e, l)
      else
        match removeFinished t l with
        | (r, l') => (r, e :: l')

/-- An arrival: seize a slot immediately if one is free (service starts
now), otherwise join the FIFO waiting queue. -/
def rpArrive (cap : Nat) (svc : ℚ) (st : RPState) (a : String) (t : ℚ) :
    RPState :=
  if st.inService.length < cap then
    { st with now := t, inService := st.inService ++ [(a, t, t + svc)] }
  else
    { st with now := t, waiting := st.waiting ++ [a] }

/-- A completion at time `m`: record the finished visit, release the
slot, and -- in the same scheduler step -- grant the head of the
waiting queue, whose service starts at `m`. -/
def rpRelease (cap : Nat) (svc : ℚ) (st : RPState) (m : ℚ) : RPState :=
  match removeFinished m st.inService with
  | (none, _) => { st with now := m }
  | (some e, rest) =>
      let base : RPState :=
        { now := m, inService := rest, waiting := st.waiting,
          records := st.records ++ [e] }
      match base.waiting with
      | [] => base
      | w :: ws =>
          if rest.length < cap then
            { base with inService := rest ++ [(w, m, m + svc)],
                        waiting := ws }
          else base

def rpSim (cap : Nat) (svc : ℚ) :
    Nat → List (String × ℚ) → RPState → RPState
  | 0, _, st => st
  | fuel + 1, arrivals, st =>
      match minFinishTime st.inService, arrivals with
      | none, [] => st
      | some m, [] => rpSim cap svc fuel [] (rpRelease cap svc st m)
      | none, (a, t) :: restA =>
          rpSim cap svc fuel restA (rpArrive cap svc st a t)
      | some m, (a, t) :: restA =>
          if t < m then rpSim cap svc fuel restA (rpArrive cap svc st a t)
          else rpSim cap svc fuel arrivals (rpRelease cap svc st m)

/-! ## Maximum-count guards of the sources
(`anylogic_flow_units.py` lines 84-104;
`semiconductor_tool_simulator.py` lines 156-182 and
`semiconductor_flow_simulator.py` lines 132-158, identical
`WaferSource._generation_process` bodies)

`Source._generation_process` loops: `if self.max_arrivals and
self.generated_count >= self.max_arrivals: break`, then one
exponential inter-arrival wait, then creates and sends one agent.
`WaferSource._generation_process` loops: the same truthiness guard on
`max_lots`/`lot_count`; then emits `lot_size` wafers, each followed by
a `uniform(10, 30)` delay; increments `lot_count`; and then waits
`lot_interval` only `if self.max_lots is None or self.lot_count <
self.max_lots`.  The traces below record the loop's observable actions
symbolically (waits carry no sampled value). -/

inductive GenAct where
  | waitArrival (k : Int)
  | emit (k : Int)
  | emitWafer (lot : Int) (idx : Nat)
  | waitIntra (lot : Int) (idx : Nat)
  | waitLotInterval
deriving Repr, DecidableEq

/-- Python truthiness guard `self.max_X and count >= self.max_X`:
`None` and `0` are both falsy, so neither ever stops the loop. -/
def pyStopGuard (maxCount : Option Int) (count : Int) : Bool :=
  match maxCount with
  | none => false
  | some m => if m = 0 then false else decide (count ≥ m)

/-- The inter-lot wait guard `self.max_lots is None or self.lot_count <
self.max_lots`. -/
def interLotGuard (maxLots : Option Int) (lotCount : Int) : Bool :=
  match maxLots with
  | none => true
  | some m => decide (lotCount < m)

def sourceGen (maxArrivals : Option Int) : Nat → Int → List GenAct
  | 0, _ => []
  | n + 1, count =>
      if pyStopGuard maxArrivals count then []
      else .waitArrival count :: .emit count ::
        sourceGen maxArrivals n (count + 1)

/-- One lot: each wafer is emitted and followed by an intra-lot delay. -/
def lotBody (lot : Int) (lotSize : Nat) : List GenAct :=
  ((List.range lotSize).map fun i =>
    [GenAct.emitWafer lot i, GenAct.waitIntra lot i]).flatten

def waferGen (maxLots : Option Int) (lotSize : Nat) :
    Nat → Int → List GenAct
  | 0, _ => []
  | n + 1, lotCount =>
      if pyStopGuard maxLots lotCount then []
      else
        lotBody lotCount lotSize ++
        (if interLotGuard maxLots (lotCount + 1) then [.waitLotInterval]
         else []) ++
        waferGen maxLots lotSize n (lotCount + 1)

def notWaitLot : GenAct → Bool
  | .waitLotInterval => false
  | _ => true

/-! ## Theorems -/

lemma fillFromPending_users_le (cap : Nat) (users : List Nat)
    (pending : List Nat) (h : users.length ≤ cap) :
    (fillFromPending cap users pending).1.length ≤ cap := by
  induction pending generalizing users with
  | nil => simpa [fillFromPending] using h
  | cons q qs ih =>
      simp only [fillFromPending]
      split
      · exact ih (users ++ [q]) (by simpa using ‹users.length < cap›)
      · simpa using h

lemma Resource.applyOp_users_le (r : Resource) (op : ResOp)
    (h : r.users.length ≤ r.capacity) :
    (r.applyOp op).users.length ≤ (r.applyOp op).capacity := by
  cases op with
  | req tok =>
      simp only [applyOp, request]
      split
      · simpa using ‹r.users.length < r.capacity›
      · simpa using h
  | rel tok =>
      simp only [applyOp, release]
      exact fillFromPending_users_le _ _ _
        (le_trans (List.length_erase_le _ _) h)

lemma Resource.applyOp_capacity (r : Resource) (op : ResOp) :
    (r.applyOp op).capacity = r.capacity := by
  cases op with
  | req tok => simp only [applyOp, request]; split <;> rfl
  | rel tok => rfl

lemma Resource.run_users_le (r : Resource) (ops : List ResOp)
    (h : r.users.length ≤ r.capacity) :
    (r.run ops).users.length ≤ (r.run ops).capacity := by
  induction ops generalizing r with
  | nil => simpa [run] using h
  | cons op ops ih =>
      simpa [run] using ih (r.applyOp op) (r.applyOp_users_le op h)

lemma Resource.run_capacity (r : Resource) (ops : List ResOp) :
    (r.run ops).capacity = r.capacity := by
  induction ops generalizing r with
  | nil => rfl
  | cons op ops ih =>
      simpa [run, Resource.applyOp_capacity] using ih (r.applyOp op)

lemma sysApply_users_le (st : PartName → Resource) (op : SysOp)
    (h : ∀ p, (st p).users.length ≤ (st p).capacity) :
    ∀ p, ((sysApply st op) p).users.length ≤ ((sysApply st op) p).capacity := by
  intro p
  cases op with
  | req part tok =>
      simp only [sysApply]
      split
      · exact Resource.applyOp_users_le (st p) (.req tok) (h p)
      · exact h p
  | rel part tok =>
      simp only [sysApply]
      split
      · exact Resource.applyOp_users_le (st p) (.rel tok) (h p)
      · exact h p

lemma sysApply_capacity (st : PartName → Resource) (op : SysOp) (p : PartName) :
    ((sysApply st op) p).capacity = (st p).capacity := by
  cases op with
  | req part tok =>
      simp only [sysApply]
      split
      · exact Resource.applyOp_capacity (st p) (.req tok)
      · rfl
  | rel part tok =>
      simp only [sysApply]
      split
      · exact Resource.applyOp_capacity (st p) (.rel tok)
      · rfl

lemma sysRun_users_le (st : PartName → Resource) (ops : List SysOp)
    (h : ∀ p, (st p).users.length ≤ (st p).capacity) :
    ∀ p, ((sysRun st ops) p).users.length ≤ ((sysRun st ops) p).capacity := by
  induction ops generalizing st with
  | nil => simpa [sysRun] using h
  | cons op ops ih =>
      simpa [sysRun] using ih (sysApply st op) (sysApply_users_le st op h)

lemma sysRun_capacity (st : PartName → Resource) (ops : List SysOp)
    (p : PartName) : ((sysRun st ops) p).capacity = (st p).capacity := by
  induction ops generalizing st with
  | nil => rfl
  | cons op ops ih =>
      simpa [sysRun, sysApply_capacity] using ih (sysApply st op)

lemma wloop_timeouts (u2p : UnitId → List PartName) (steps : List FlowStep)
    (prev : Option FlowStep) (st : WState) (c : PartName)
    (hcur : st.cur = some c) (hend : st.ended = false)
    (hne : ∀ s ∈ steps, u2p s.unit_id ≠ []) :
    wloop u2p (steps.map fun s => (s, Outcome.timeout [])) prev st =
      { st with now := st.now + satSpan steps } := by
  induction steps generalizing prev st with
  | nil =>
      simp [wloop, satSpan]
  | cons s ss ih =>
      have hs : u2p s.unit_id ≠ [] := hne s (List.mem_cons_self s ss)
      have hrest : ∀ x ∈ ss, u2p x.unit_id ≠ [] :=
        fun x hx => hne x (List.mem_cons_of_mem s hx)
      have hstep : wstep u2p prev s (Outcome.timeout []) st =
          { st with now := st.now + 1000 + s.duration_min } := by
        simp [wstep, hend, hcur, hs, acqEvents]
      rw [List.map_cons, wloop, hstep,
        ih _ _ (by simp [hcur]) (by simp [hend]) hrest]
      simp [satSpan]
      ring

lemma acqEvents_singleton (parts : List PartName) (i : Nat) (t : ℚ)
    (h : i < parts.length) :
    acqEvents parts [i] t = [Ev.acq ((parts[i]?).getD "") t] := by
  simp [acqEvents, List.getElem?_eq_getElem h]

lemma wloop_granted (u2p : UnitId → List PartName) (gs : List GStep)
    (prevS : FlowStep) (st : WState) (c : PartName)
    (hcur : st.cur = some c) (hend : st.ended = false)
    (hval : ∀ g ∈ gs, g.idx < (u2p g.step.unit_id).length) :
    wloop u2p (gs.map fun g => (g.step, gOutcome g)) (some prevS) st =
      { now := gEnd st.now gs,
        cur := some (gCur u2p c gs),
        rst := gRst st.rst st.now gs,
        log := st.log ++ gLog u2p prevS c st.rst st.now gs,
        evs := st.evs ++ gEvs u2p c st.now gs,
        adopts := st.adopts ++ gAdopts u2p st.now gs,
        ended := false,
        endTime := st.endTime } := by
  induction gs generalizing prevS st c with
  | nil =>
      cases st with
      | mk now cur rst log evs adopts ended endTime =>
          simp_all [wloop, gEnd, gCur, gRst, gLog, gEvs, gAdopts]
  | cons g gs ih =>
      have hg : g.idx < (u2p g.step.unit_id).length :=
        hval g (List.mem_cons_self g gs)
      have hrest : ∀ x ∈ gs, x.idx < (u2p x.step.unit_id).length :=
        fun x hx => hval x (List.mem_cons_of_mem g hx)
      have hne : ¬(u2p g.step.unit_id = []) := by
        intro h0
        simp [h0] at hg
      have hstep : wstep u2p (some prevS) g.step (gOutcome g) st =
          { st with
              now := st.now + g.wait + g.step.duration_min,
              cur := some (gPart u2p g),
              rst := st.now + g.wait,
              log := st.log ++
                [{ unit_id := prevS.unit_id, seq_id := prevS.seq_id,
                   part := c, start := st.rst, fin := st.now + g.wait }],
              evs := st.evs ++
                [Ev.acq (gPart u2p g) (st.now + g.wait),
                 Ev.rel c (st.now + g.wait)],
              adopts := st.adopts ++ [(gPart u2p g, st.now + g.wait)] } := by
        simp [wstep, gOutcome, hend, hcur, hne, minIdx,
          acqEvents_singleton _ _ _ hg, gPart, add_assoc]
      have h1 := ih g.step
        { st with
            now := st.now + g.wait + g.step.duration_min,
            cur := some (gPart u2p g),
            rst := st.now + g.wait,
            log := st.log ++
              [{ unit_id := prevS.unit_id, seq_id := prevS.seq_id,
                 part := c, start := st.rst, fin := st.now + g.wait }],
            evs := st.evs ++
              [Ev.acq (gPart u2p g) (st.now + g.wait),
               Ev.rel c (st.now + g.wait)],
            adopts := st.adopts ++ [(gPart u2p g, st.now + g.wait)] }
        (gPart u2p g) rfl hend hrest
      rw [List.map_cons, wloop, hstep, h1]
      simp [gEnd, gCur, gRst, gLog, gEvs, gAdopts, gPart]

lemma gLog_length (u2p : UnitId → List PartName) (gs : List GStep) :
    ∀ (prev : FlowStep) (c : PartName) (r t : ℚ),
      (gLog u2p prev c r t gs).length = gs.length := by
  induction gs with
  | nil => intro prev c r t; rfl
  | cons g gs ih => intro prev c r t; simp [gLog, ih]

lemma gEvs_acquireCount (u2p : UnitId → List PartName) (gs : List GStep) :
    ∀ (c : PartName) (t : ℚ), acquireCount (gEvs u2p c t gs) = gs.length := by
  induction gs with
  | nil => intro c t; rfl
  | cons g gs ih => intro c t; simp [gEvs, acquireCount, List.filter] at ih ⊢; simp [ih]

lemma gEvs_releaseCount (u2p : UnitId → List PartName) (gs : List GStep) :
    ∀ (c : PartName) (t : ℚ), releaseCount (gEvs u2p c t gs) = gs.length := by
  induction gs with
  | nil => intro c t; rfl
  | cons g gs ih => intro c t; simp [gEvs, releaseCount, List.filter] at ih ⊢; simp [ih]

lemma heldParts_gEvs (u2p : UnitId → List PartName) (gs : List GStep) :
    ∀ (c : PartName) (t : ℚ),
      List.foldl heldStep [c] (gEvs u2p c t gs) = [gCur u2p c gs] := by
  induction gs with
  | nil => intro c t; rfl
  | cons g gs ih =>
      intro c t
      simp only [gEvs, List.foldl_cons, heldStep, gCur]
      rw [show ([c] ++ [gPart u2p g]).erase c = [gPart u2p g] by simp]
      exact ih _ _

/-- C1 -- The hold-and-wait invariant fails on the code: when both idle
parts of the next unit trigger in the same instant, the process adopts
the lower-indexed grant and cancels only requests with
`not req.triggered`, so the other triggered grant is never released.  On
`cfgFlow1` with `ocsLeak` the wafer acquires 5 grants but releases only
3 (it leaks `B.02` and `C.02`), and at the observable instant after the
third loop iteration it holds 3 grants simultaneously -- contradicting
"at most two grants" and "releases equal acquires". -/
theorem hold_and_wait_grant_leak :
    acquireCount (waferRun u2pLeak cfgFlow1 ocsLeak 0).evs = 5 ∧
    releaseCount (waferRun u2pLeak cfgFlow1 ocsLeak 0).evs = 3 ∧
    heldParts (waferRunPartial u2pLeak cfgFlow1 ocsLeak 0 3).evs =
      ["B.02", "C.01", "C.02"] ∧
    heldParts (waferRun u2pLeak cfgFlow1 ocsLeak 0).evs = ["B.02", "C.02"] := by
  refine ⟨?_, ?_, ?_, ?_⟩ <;> decide

/-- C4 (counterexample) -- With the downstream permanently saturated
(`ocsSat`: every next-station race times out), the wafer does not repeat
the current step indefinitely: each timed-out iteration processes the
*attempted* step's `duration_min` on the still-held first resource and
then advances to the following step, so the run terminates at
`0 + 0 + 7 + (1000 + 11) + (1000 + 13) = 2031` with the single held
grant released exactly once. -/
theorem timeout_retry_counterexample :
    (waferRun u2pLeak cfgFlow1 ocsSat 0).endTime = some 2031 ∧
    (waferRun u2pLeak cfgFlow1 ocsSat 0).evs =
      [Ev.acq "A.01" 0, Ev.rel "A.01" 2031] ∧
    (waferRun u2pLeak cfgFlow1 ocsSat 0).log =
      [{ unit_id := "C", seq_id := 3, part := "A.01", start := 0, fin := 2031 }] := by
  refine ⟨?_, ?_, ?_⟩ <;>
    · simp +decide [waferRun, sortedFlow, isortBy, insBefore, wloop, wstep,
        wInit, wFinalize, u2pLeak, cfgFlow1, ocsSat, acqEvents, minIdx]
      norm_num

/-- C4 (amended) -- If the first station race is won by a single grant
and every subsequent next-station race times out, the process cancels
the pending (untriggered) requests, keeps holding its initial grant
without releasing it, processes each attempted step's `duration_min` on
that still-held resource, advances to the following step, and exits
after `w + d₀ + Σ (1000 + dₖ)`: it acquires exactly one grant and
releases it exactly once at the end (release count never exceeds
acquire count), logging a single interval attributed to the last flow
step. -/
theorem timeout_fallback_advances (u2p : UnitId → List PartName)
    (flow : List FlowStep) (s0 : FlowStep) (rest : List FlowStep)
    (i : Nat) (w t0 : ℚ)
    (hsf : sortedFlow flow = s0 :: rest)
    (hi : i < (u2p s0.unit_id).length)
    (hw0 : 0 ≤ w) (hw1 : w < 1000)
    (hner : ∀ s ∈ rest, u2p s.unit_id ≠ []) :
    waferRun u2p flow
        (Outcome.granted [i] w :: rest.map fun _ => Outcome.timeout []) t0 =
      { now := t0 + w + s0.duration_min + satSpan rest,
        cur := some (((u2p s0.unit_id)[i]?).getD ""),
        rst := t0 + w,
        log := [{ unit_id := (rest.getLast?.getD s0).unit_id,
                  seq_id := (rest.getLast?.getD s0).seq_id,
                  part := ((u2p s0.unit_id)[i]?).getD "",
                  start := t0 + w,
                  fin := t0 + w + s0.duration_min + satSpan rest }],
        evs := [Ev.acq (((u2p s0.unit_id)[i]?).getD "") (t0 + w),
                Ev.rel (((u2p s0.unit_id)[i]?).getD "")
                  (t0 + w + s0.duration_min + satSpan rest)],
        adopts := [(((u2p s0.unit_id)[i]?).getD "", t0 + w)],
        ended := false,
        endTime := some (t0 + w + s0.duration_min + satSpan rest) } := by
  have hne0 : ¬(u2p s0.unit_id = []) := by
    intro h0; simp [h0] at hi
  have hzip : rest.zip (rest.map fun _ => Outcome.timeout []) =
      rest.map fun s => (s, Outcome.timeout []) := by
    have := List.zip_map' (id : FlowStep → FlowStep)
      (fun _ => Outcome.timeout []) rest
    simpa using this
  have hstep0 : wstep u2p none s0 (Outcome.granted [i] w) (wInit t0) =
      { now := t0 + w + s0.duration_min,
        cur := some (((u2p s0.unit_id)[i]?).getD ""),
        rst := t0 + w,
        log := [],
        evs := [Ev.acq (((u2p s0.unit_id)[i]?).getD "") (t0 + w)],
        adopts := [(((u2p s0.unit_id)[i]?).getD "", t0 + w)],
        ended := false,
        endTime := none } := by
    simp [wstep, wInit, hne0, minIdx, acqEvents_singleton _ _ _ hi, add_assoc]
  have hloop := wloop_timeouts u2p rest (some s0)
    { now := t0 + w + s0.duration_min,
      cur := some (((u2p s0.unit_id)[i]?).getD ""),
      rst := t0 + w,
      log := [],
      evs := [Ev.acq (((u2p s0.unit_id)[i]?).getD "") (t0 + w)],
      adopts := [(((u2p s0.unit_id)[i]?).getD "", t0 + w)],
      ended := false,
      endTime := none }
    (((u2p s0.unit_id)[i]?).getD "") rfl rfl hner
  simp only [waferRun, hsf]
  rw [if_neg (by simp), List.zip_cons_cons, hzip, wloop, hstep0, hloop]
  simp only [wFinalize, wInit, List.getLast?_cons]
  simp

lemma acquireCount_append (a b : List Ev) :
    acquireCount (a ++ b) = acquireCount a + acquireCount b := by
  simp [acquireCount, List.filter_append]

lemma releaseCount_append (a b : List Ev) :
    releaseCount (a ++ b) = releaseCount a + releaseCount b := by
  simp [releaseCount, List.filter_append]

lemma acquireCount_cons_acq (p : PartName) (t : ℚ) (evs : List Ev) :
    acquireCount (Ev.acq p t :: evs) = acquireCount evs + 1 := by
  simp [acquireCount, List.filter_cons]

lemma releaseCount_cons_acq (p : PartName) (t : ℚ) (evs : List Ev) :
    releaseCount (Ev.acq p t :: evs) = releaseCount evs := by
  simp [releaseCount, List.filter_cons]

/-- C4 (witness) -- The amended timeout-fallback theorem evaluated on
`cfgFlow1` under permanent downstream saturation starting from a
successful instantaneous first acquisition. -/
theorem timeout_fallback_advances_witness :
    waferRun u2pLeak cfgFlow1 ocsSat 0 =
      { now := 2031, cur := some "A.01", rst := 0,
        log := [{ unit_id := "C", seq_id := 3, part := "A.01",
                  start := 0, fin := 2031 }],
        evs := [Ev.acq "A.01" 0, Ev.rel "A.01" 2031],
        adopts := [("A.01", 0)], ended := false, endTime := some 2031 } := by
  have h := timeout_fallback_advances u2pLeak cfgFlow1 ⟨1, "A", 7, false⟩
      [⟨2, "B", 11, false⟩, ⟨3, "C", 13, false⟩] 0 0 0
      (by decide) (by decide) le_rfl (by norm_num)
      (by intro s hs; fin_cases hs <;> simp [u2pLeak])
  refine Eq.trans (Eq.trans ?_ h) ?_
  · rfl
  · norm_num [satSpan, u2pLeak]

set_option maxRecDepth 4000 in
/-- C5 -- Clean hand-off runs: whenever every race is won by a single
next-station grant arriving before the timeout, each hand-off appends a
log record for the *previous* flow step spanning exactly from the time
the previous grant was acquired to the current time, releases the
previous grant at that instant, and adopts the new grant; after the
final step's processing interval the run appends the last record and
releases the held resource, the exit time (`endTime`) being the
simulated time of that final release.  Consequently there is one record
per station visited, releases equal acquires, and nothing remains held
at exit. -/
theorem handoff_records_and_releases (u2p : UnitId → List PartName)
    (flow : List FlowStep) (g0 : GStep) (gs : List GStep) (t0 : ℚ)
    (hsf : sortedFlow flow = g0.step :: gs.map (·.step))
    (hval : ∀ g ∈ g0 :: gs, g.idx < (u2p g.step.unit_id).length ∧
      0 ≤ g.wait ∧ g.wait < 1000) :
    waferRun u2p flow ((g0 :: gs).map gOutcome) t0 =
      { now := gEnd t0 (g0 :: gs),
        cur := some (gCur u2p (gPart u2p g0) gs),
        rst := gRst (t0 + g0.wait) (t0 + g0.wait + g0.step.duration_min) gs,
        log := gLog u2p g0.step (gPart u2p g0) (t0 + g0.wait)
                 (t0 + g0.wait + g0.step.duration_min) gs ++
               [{ unit_id := ((gs.map (·.step)).getLast?.getD g0.step).unit_id,
                  seq_id := ((gs.map (·.step)).getLast?.getD g0.step).seq_id,
                  part := gCur u2p (gPart u2p g0) gs,
                  start := gRst (t0 + g0.wait)
                    (t0 + g0.wait + g0.step.duration_min) gs,
                  fin := gEnd t0 (g0 :: gs) }],
        evs := Ev.acq (gPart u2p g0) (t0 + g0.wait) ::
               (gEvs u2p (gPart u2p g0)
                  (t0 + g0.wait + g0.step.duration_min) gs ++
                [Ev.rel (gCur u2p (gPart u2p g0) gs) (gEnd t0 (g0 :: gs))]),
        adopts := gAdopts u2p t0 (g0 :: gs),
        ended := false,
        endTime := some (gEnd t0 (g0 :: gs)) } ∧
    (waferRun u2p flow ((g0 :: gs).map gOutcome) t0).log.length =
      (g0 :: gs).length ∧
    releaseCount (waferRun u2p flow ((g0 :: gs).map gOutcome) t0).evs =
      acquireCount (waferRun u2p flow ((g0 :: gs).map gOutcome) t0).evs ∧
    heldParts (waferRun u2p flow ((g0 :: gs).map gOutcome) t0).evs = [] := by
  have hi0 : g0.idx < (u2p g0.step.unit_id).length :=
    (hval g0 (List.mem_cons_self g0 gs)).1
  have hvr : ∀ g ∈ gs, g.idx < (u2p g.step.unit_id).length :=
    fun g hg => (hval g (List.mem_cons_of_mem g0 hg)).1
  have hne0 : ¬(u2p g0.step.unit_id = []) := by
    intro h0; simp [h0] at hi0
  have hzip : (g0.step :: gs.map (·.step)).zip ((g0 :: gs).map gOutcome) =
      (g0.step, gOutcome g0) :: gs.map fun g => (g.step, gOutcome g) := by
    simp only [List.map_cons, List.zip_cons_cons]
    rw [List.zip_map' _ _ gs]
  have hstep0 : wstep u2p none g0.step (gOutcome g0) (wInit t0) =
      { now := t0 + g0.wait + g0.step.duration_min,
        cur := some (gPart u2p g0),
        rst := t0 + g0.wait,
        log := [],
        evs := [Ev.acq (gPart u2p g0) (t0 + g0.wait)],
        adopts := [(gPart u2p g0, t0 + g0.wait)],
        ended := false,
        endTime := none } := by
    simp [wstep, gOutcome, wInit, hne0, minIdx,
      acqEvents_singleton _ _ _ hi0, gPart, add_assoc]
  have hloop := wloop_granted u2p gs g0.step
    { now := t0 + g0.wait + g0.step.duration_min,
      cur := some (gPart u2p g0),
      rst := t0 + g0.wait,
      log := [],
      evs := [Ev.acq (gPart u2p g0) (t0 + g0.wait)],
      adopts := [(gPart u2p g0, t0 + g0.wait)],
      ended := false,
      endTime := none }
    (gPart u2p g0) rfl rfl hvr
  have hmain : waferRun u2p flow ((g0 :: gs).map gOutcome) t0 =
      { now := gEnd t0 (g0 :: gs),
        cur := some (gCur u2p (gPart u2p g0) gs),
        rst := gRst (t0 + g0.wait) (t0 + g0.wait + g0.step.duration_min) gs,
        log := gLog u2p g0.step (gPart u2p g0) (t0 + g0.wait)
                 (t0 + g0.wait + g0.step.duration_min) gs ++
               [{ unit_id := ((gs.map (·.step)).getLast?.getD g0.step).unit_id,
                  seq_id := ((gs.map (·.step)).getLast?.getD g0.step).seq_id,
                  part := gCur u2p (gPart u2p g0) gs,
                  start := gRst (t0 + g0.wait)
                    (t0 + g0.wait + g0.step.duration_min) gs,
                  fin := gEnd t0 (g0 :: gs) }],
        evs := Ev.acq (gPart u2p g0) (t0 + g0.wait) ::
               (gEvs u2p (gPart u2p g0)
                  (t0 + g0.wait + g0.step.duration_min) gs ++
                [Ev.rel (gCur u2p (gPart u2p g0) gs) (gEnd t0 (g0 :: gs))]),
        adopts := gAdopts u2p t0 (g0 :: gs),
        ended := false,
        endTime := some (gEnd t0 (g0 :: gs)) } := by
    simp only [waferRun, hsf]
    rw [if_neg (by simp), hzip, wloop, hstep0, hloop]
    simp only [wFinalize, List.getLast?_cons]
    simp [gEnd, gAdopts, gLog, gEvs, gCur, gRst]
  refine ⟨hmain, ?_, ?_, ?_⟩
  · rw [hmain]
    simp [gLog_length]
  · rw [hmain]
    rw [acquireCount_cons_acq, releaseCount_cons_acq,
      acquireCount_append, releaseCount_append,
      gEvs_acquireCount, gEvs_releaseCount]
    simp [acquireCount, releaseCount]
  · rw [hmain]
    simp only [heldParts, List.foldl_cons, List.foldl_append, heldStep,
      List.nil_append]
    rw [heldParts_gEvs]
    simp [heldStep]

/-- C5 (witness) -- The clean hand-off theorem evaluated on `cfgFlow1`
with single grants arriving after waits 2, 3 and 5: records span
[2,12], [12,28], [28,41]; each hand-off releases the previous grant at
the new adoption instant; exit at time 41 with nothing held. -/
theorem handoff_records_and_releases_witness :
    waferRun u2pLeak cfgFlow1
        [Outcome.granted [0] 2, Outcome.granted [1] 3, Outcome.granted [0] 5]
        0 =
      { now := 41, cur := some "C.01", rst := 28,
        log := [{ unit_id := "A", seq_id := 1, part := "A.01",
                  start := 2, fin := 12 },
                { unit_id := "B", seq_id := 2, part := "B.02",
                  start := 12, fin := 28 },
                { unit_id := "C", seq_id := 3, part := "C.01",
                  start := 28, fin := 41 }],
        evs := [Ev.acq "A.01" 2, Ev.acq "B.02" 12, Ev.rel "A.01" 12,
                Ev.acq "C.01" 28, Ev.rel "B.02" 28, Ev.rel "C.01" 41],
        adopts := [("A.01", 2), ("B.02", 12), ("C.01", 28)],
        ended := false, endTime := some 41 } ∧
    heldParts (waferRun u2pLeak cfgFlow1
        [Outcome.granted [0] 2, Outcome.granted [1] 3, Outcome.granted [0] 5]
        0).evs = [] := by
  have h := handoff_records_and_releases u2pLeak cfgFlow1
      ⟨⟨1, "A", 7, false⟩, 0, 2⟩
      [⟨⟨2, "B", 11, false⟩, 1, 3⟩, ⟨⟨3, "C", 13, false⟩, 0, 5⟩] 0
      (by decide)
      (by intro g hg; fin_cases hg <;>
        exact ⟨by decide, by norm_num, by norm_num⟩)
  refine ⟨Eq.trans (Eq.trans ?_ h.1) ?_, ?_⟩
  · rfl
  · simp +decide [gEnd, gAdopts, gLog, gEvs, gCur, gRst, gPart, u2pLeak]
    norm_num
  · exact h.2.2.2

/-- C2 -- For every capacity-limited resource, at every instant (i.e.
after any sequence of request/release operations from its initial empty
state) the number of concurrent holders never exceeds the configured
capacity; and in the MetalTool system, where each physical part name is
backed by one shared capacity-1 resource regardless of how many station
groups reference it, every part has at most one holder at every instant. -/
theorem capacity_invariant :
    (∀ (C : Nat) (ops : List ResOp),
        ((Resource.init C).run ops).users.length ≤ C) ∧
    (∀ (ops : List SysOp) (p : PartName),
        ((sysRun metalToolInit ops) p).users.length ≤ 1) := by
  constructor
  · intro C ops
    have h := Resource.run_users_le (Resource.init C) ops (by simp [Resource.init])
    simpa [Resource.run_capacity, Resource.init] using h
  · intro ops p
    have h := sysRun_users_le metalToolInit ops
      (fun p => by simp [metalToolInit, Resource.init]) p
    have hc := sysRun_capacity metalToolInit ops p
    simp [metalToolInit, Resource.init] at hc
    omega

lemma pqInsert_length (a : String) (p : Int) (l : List (String × Int)) :
    (pqInsert a p l).length = l.length + 1 := by
  induction l with
  | nil => rfl
  | cons e l ih =>
      cases e with
      | mk b q =>
          simp only [pqInsert]
          split <;> simp [ih]

lemma QueueU.insertAgent_fields (q : QueueU) (a : String) :
    (q.insertAgent a).buf.length = q.buf.length + 1 ∧
    (q.insertAgent a).agents_entered = q.agents_entered ∧
    (q.insertAgent a).agents_exited = q.agents_exited ∧
    (q.insertAgent a).forwarded = q.forwarded ∧
    (q.insertAgent a).dropped = q.dropped := by
  rcases hp : q.priorityOf with _ | f <;>
    simp [insertAgent, hp, pqInsert_length]

/-- The per-receive conservation step for `Queue`. -/
lemma QueueU.receive_conservation (q : QueueU) (a : String)
    (h : q.agents_entered = q.agents_exited + q.buf.length + q.dropped)
    (hf : q.forwarded.length = q.agents_exited) :
    ((q.receive a).agents_entered =
      (q.receive a).agents_exited + (q.receive a).buf.length +
        (q.receive a).dropped) ∧
    (q.receive a).forwarded.length = (q.receive a).agents_exited := by
  simp only [receive]
  split
  · generalize hq2 :
      QueueU.insertAgent { q with agents_entered := q.agents_entered + 1 } a
        = q2
    obtain ⟨hlen, hent, hext, hfw, hdr⟩ :=
      hq2 ▸ QueueU.insertAgent_fields
        { q with agents_entered := q.agents_entered + 1 } a
    simp only at hent hext hfw hdr
    cases hb : q2.buf with
    | nil => rw [hb] at hlen; simp at hlen
    | cons hd rest =>
        rw [hb] at hlen
        simp only [List.length_cons] at hlen
        simp only [tryForward, hb]
        split
        · constructor
          · simp only
            omega
          · simp [hfw, hext, hf]
        · constructor
          · rw [hb] at *
            simp only [List.length_cons]
            omega
          · simp [hfw, hext, hf]
  · simp only
    constructor
    · omega
    · simpa using hf

/-- C3 -- Conservation for Flow Nodes: for the Queue,
`agents_entered = agents_exited + (agents currently buffered) +
(agents rejected)` holds after every receive, and every forwarded agent
was first counted (`forwarded = agents_exited`, which never exceeds
`agents_entered`); for SelectOutput, which holds no agents, entered
equals exited at every observable instant and the number of routed
agents never exceeds the exited count. -/
theorem flow_node_conservation :
    (∀ (cap : Option Nat) (prio : Option (String → Int)) (hasOut : Bool)
        (arrivals : List String),
      ((QueueU.init cap prio hasOut).run arrivals).agents_entered =
          ((QueueU.init cap prio hasOut).run arrivals).agents_exited +
          ((QueueU.init cap prio hasOut).run arrivals).buf.length +
          ((QueueU.init cap prio hasOut).run arrivals).dropped ∧
        ((QueueU.init cap prio hasOut).run arrivals).forwarded.length =
          ((QueueU.init cap prio hasOut).run arrivals).agents_exited ∧
        ((QueueU.init cap prio hasOut).run arrivals).agents_exited ≤
          ((QueueU.init cap prio hasOut).run arrivals).agents_entered) ∧
    (∀ (ht hf : Bool) (arrivals : List (String × Bool)),
      ((SelectOutputU.init ht hf).run arrivals).agents_entered =
          ((SelectOutputU.init ht hf).run arrivals).agents_exited ∧
        ((SelectOutputU.init ht hf).run arrivals).forwardedTrue.length +
          ((SelectOutputU.init ht hf).run arrivals).forwardedFalse.length ≤
          ((SelectOutputU.init ht hf).run arrivals).agents_exited) := by
  constructor
  · intro cap prio hasOut arrivals
    suffices h : ∀ (q : QueueU),
        q.agents_entered = q.agents_exited + q.buf.length + q.dropped →
        q.forwarded.length = q.agents_exited →
        (q.run arrivals).agents_entered =
          (q.run arrivals).agents_exited + (q.run arrivals).buf.length +
            (q.run arrivals).dropped ∧
        (q.run arrivals).forwarded.length = (q.run arrivals).agents_exited by
      have := h (QueueU.init cap prio hasOut) (by simp [QueueU.init])
        (by simp [QueueU.init])
      exact ⟨this.1, this.2, by omega⟩
    induction arrivals with
    | nil => intro q h hf; exact ⟨h, hf⟩
    | cons a rest ih =>
        intro q h hf
        have step := q.receive_conservation a h hf
        exact ih (q.receive a) step.1 step.2
  · intro ht hf arrivals
    suffices h : ∀ (s : SelectOutputU),
        s.agents_entered = s.agents_exited →
        s.forwardedTrue.length + s.forwardedFalse.length ≤ s.agents_exited →
        ((s.run arrivals).agents_entered = (s.run arrivals).agents_exited ∧
         (s.run arrivals).forwardedTrue.length +
           (s.run arrivals).forwardedFalse.length ≤
           (s.run arrivals).agents_exited) by
      exact h (SelectOutputU.init ht hf) rfl (by simp [SelectOutputU.init])
    induction arrivals with
    | nil => intro s h hfwd; exact ⟨h, hfwd⟩
    | cons ab rest ih =>
        intro s h hfwd
        refine ih (s.receive ab.1 ab.2) ?_ ?_ <;>
          · simp only [SelectOutputU.receive]
            split <;> split <;> simp <;> omega

/-- C7 (counterexample) -- An arrival at a full `Queue` is dropped with
only a log warning: no rejection counter is incremented, because the
`Queue` object has none.  Concretely, receiving `W2` into the full
`qFull` changes the node's statistics dict only in `agents_entered`
(and the derived `current_population`); every other stored field --
`agents_exited`, the buffer, the forwarded list -- is unchanged, and
the statistics record carries no rejection entry at all (the lost agent
is visible only through the model's ghost `dropped` field). -/
theorem queue_rejection_uncounted :
    qFull.getStatistics =
      { agents_entered := 1, agents_exited := 0, current_population := 1,
        current_queue_length := 1, capacity := some 1, utilization := 1 } ∧
    (qFull.receive "W2").getStatistics =
      { agents_entered := 2, agents_exited := 0, current_population := 2,
        current_queue_length := 1, capacity := some 1, utilization := 1 } ∧
    (qFull.receive "W2").buf = qFull.buf ∧
    (qFull.receive "W2").agents_exited = qFull.agents_exited ∧
    (qFull.receive "W2").forwarded = qFull.forwarded ∧
    (qFull.receive "W2").dropped = qFull.dropped + 1 := by
  refine ⟨?_, ?_, ?_, ?_, ?_, ?_⟩ <;>
    · simp +decide [QueueU.receive, QueueU.getStatistics, qFull, capOk]
      try norm_num

/-- C7 (amended) -- An arrival beyond capacity is not fatal in either
node, but only the `Service` counts it: a full `Service` queue
increments `rejected_agents` by one and drops the agent, while a full
`Queue` drops the agent with only a warning, changing nothing but
`agents_entered` (the model's ghost `dropped` records the loss; the
Python object stores no such counter and its statistics expose none). -/
theorem rejection_counting (q : QueueU) (a : String) (s : ServiceU)
    (b : String) (now : ℚ)
    (hq : capOk q.capacity q.buf.length = false)
    (hs : capReached s.queue_capacity s.buf.length = true) :
    q.receive a = { q with agents_entered := q.agents_entered + 1,
                           dropped := q.dropped + 1 } ∧
    s.receive b now =
      .rejected { s with agents_entered := s.agents_entered + 1,
                         rejected_agents := s.rejected_agents + 1 } := by
  constructor
  · simp only [QueueU.receive]
    rw [if_neg (by simpa using hq)]
  · simp only [ServiceU.receive]
    rw [if_pos (by simpa using hs)]

/-- C7 (witness) -- The amended rejection behaviour evaluated on the
full queue `qFull` and the full service `sFull`. -/
theorem rejection_counting_witness :
    qFull.receive "W2" =
      { qFull with agents_entered := 2, dropped := 1 } ∧
    sFull.receive "W9" 0 =
      .rejected { sFull with agents_entered := 4, rejected_agents := 1 } := by
  have h := rejection_counting qFull "W2" sFull "W9" 0 (by decide) (by decide)
  exact ⟨h.1, h.2⟩

/-- C8 -- Missing route: when a wafer reaches a unit with no registered
step for its current sequence position, the run is not aborted and the
wafer is not lost: the unit emits a diagnostic, counts the wafer in
both `agents_entered` and `agents_exited`, advances the wafer's
sequence pointer by one with its history untouched, and forwards the
wafer downstream (`missingRoute` ends in `send_agent`). -/
theorem missing_route_recovery (u : ToolUnitU) (a : WaferA)
    (now sample : ℚ)
    (h : u.findStep a.current_seq_id = none) :
    u.receive a now sample =
      .missingRoute
        { u with agents_entered := u.agents_entered + 1,
                 agents_exited := u.agents_exited + 1 }
        { a with current_seq_id := a.current_seq_id + 1 } := by
  simp only [ToolUnitU.receive, ToolUnitU.findStep] at h ⊢
  rw [h]

/-- C8 (witness) -- The missing-route recovery evaluated on `uEx` and
`wEx`. -/
theorem missing_route_recovery_witness :
    uEx.receive wEx 100 0 =
      .missingRoute
        { uEx with agents_entered := 1, agents_exited := 1 }
        { wEx with current_seq_id := 6 } :=
  missing_route_recovery uEx wEx 100 0 (by decide)

/-- C6 (counterexample) -- With `duration_std = 0` the normal draw is
deterministically the mean (`np.random.normal(5, 0) = 5`), so the
claimed rule gives exactly the mean, 5; but
`SemiconductorToolUnit.get_processing_time` still clamps at
`duration_min` and returns `max(10, 5) = 10 ≠ 5`. -/
theorem duration_rule_counterexample :
    uClamp.getProcessingTime 1 5 = 10 ∧ claimedDuration 5 0 10 5 = 5 := by
  constructor
  · simp +decide [ToolUnitU.getProcessingTime, ToolUnitU.findStep, uClamp]
  · norm_num [claimedDuration]

/-- C6 (amended) -- `FlowController._process_wafer_flow` follows the
claimed rule exactly (clamped normal draw when the deviation is
positive, the bare mean otherwise); `SemiconductorToolUnit.
get_processing_time` instead returns 0 for a zero-mean step and
otherwise `max(duration_min, sample)` unconditionally, so with a zero
deviation it yields `max(duration_min, mean)` rather than the mean
(and the `tool_simulator` hold-and-wait process always uses
`duration_min`, cf. `wstep`). -/
theorem duration_rules (mean std dmin sample : ℚ) (u : ToolUnitU)
    (seq : Int) (st : ToolStep)
    (hfind : u.findStep seq = some st) :
    flowControllerDuration mean std dmin sample =
      claimedDuration mean std dmin sample ∧
    (st.duration_mean = 0 → u.getProcessingTime seq sample = 0) ∧
    (st.duration_mean ≠ 0 →
      u.getProcessingTime seq sample = max st.duration_min sample) := by
  refine ⟨rfl, ?_, ?_⟩ <;> intro h <;>
    simp [ToolUnitU.getProcessingTime, hfind, h]

/-- C6 (witness) -- The amended duration rules evaluated on `uClamp`
(mean 5, deviation 0, minimum 10, deterministic draw 5). -/
theorem duration_rules_witness :
    flowControllerDuration 5 0 10 5 = claimedDuration 5 0 10 5 ∧
    uClamp.getProcessingTime 1 5 = max 10 5 := by
  have h := duration_rules 5 0 10 5 uClamp 1 ⟨1, "U", 5, 0, 10⟩ (by decide)
  exact ⟨h.1, h.2.2 (by norm_num)⟩

/-- C9 -- One ResourcePool with capacity 2 and deterministic service
time 5, three entities arriving at times 0, 1, 2 with no priority:
entities 1 and 2 start service immediately (t = 0 and t = 1) and finish
at t = 5 and t = 6; entity 3 finds both slots busy at t = 2 and waits
in the queue (it is the sole queued agent after the three arrivals),
starts at t = 5 when entity 1's slot frees, and finishes at t = 10. -/
theorem resource_pool_capacity_two_scenario :
    (rpSim 2 5 10 [("E1", 0), ("E2", 1), ("E3", 2)]
        { now := 0, inService := [], waiting := [], records := [] }).records =
      [("E1", 0, 5), ("E2", 1, 6), ("E3", 5, 10)] ∧
    (rpSim 2 5 3 [("E1", 0), ("E2", 1), ("E3", 2)]
        { now := 0, inService := [], waiting := [], records := [] }).waiting =
      ["E3"] := by
  constructor <;>
    · norm_num [rpSim, rpArrive, rpRelease, minFinishTime, removeFinished]

/-- C10 (counterexample) -- `WaferSource` with `max_lots = 0` is *not*
exactly the same as `max_lots = None`: the stop guard treats 0 as
unset (lots keep coming), but the separate inter-lot wait guard
`max_lots is None or lot_count < max_lots` is false for 0, so the
source skips the `lot_interval` wait between lots; over two loop
iterations of single-wafer lots the traces differ. -/
theorem wafer_source_zero_max_counterexample :
    waferGen (some 0) 1 2 0 =
      [.emitWafer 0 0, .waitIntra 0 0, .emitWafer 1 0, .waitIntra 1 0] ∧
    waferGen none 1 2 0 =
      [.emitWafer 0 0, .waitIntra 0 0, .waitLotInterval,
       .emitWafer 1 0, .waitIntra 1 0, .waitLotInterval] ∧
    waferGen (some 0) 1 2 0 ≠ waferGen none 1 2 0 := by
  refine ⟨?_, ?_, ?_⟩ <;> decide

/-- C10 (amended) -- The truthiness stop guards treat a maximum of 0 as
unset: `Source` with `max_arrivals = 0` generates exactly as with
`None` (identical traces, unbounded), and `WaferSource` with
`max_lots = 0` generates the same unbounded stream of lots and wafers
as with `None` -- but, unlike `None`, it skips the inter-lot
`lot_interval` wait after every lot, so the two timelines differ. -/
theorem zero_max_treated_as_unset :
    (∀ (n : Nat) (c : Int), sourceGen (some 0) n c = sourceGen none n c) ∧
    (∀ (c : Int), pyStopGuard (some 0) c = false ∧
      pyStopGuard none c = false) ∧
    (∀ (lotSize n : Nat) (k : Int),
      (waferGen (some 0) lotSize n k).filter notWaitLot =
        (waferGen none lotSize n k).filter notWaitLot) ∧
    (∀ (k : Nat), interLotGuard (some 0) ((k : Int) + 1) = false ∧
      interLotGuard none ((k : Int) + 1) = true) := by
  refine ⟨?_, ?_, ?_, ?_⟩
  · intro n
    induction n with
    | zero => intro c; rfl
    | succ n ih =>
        intro c
        simp [sourceGen, pyStopGuard, ih]
  · intro c
    simp [pyStopGuard]
  · intro lotSize n
    induction n with
    | zero => intro k; rfl
    | succ n ih =>
        intro k
        simp only [waferGen, pyStopGuard, interLotGuard]
        simp [List.filter_append, ih, notWaitLot]
  · intro k
    refine ⟨?_, rfl⟩
    simp only [interLotGuard, decide_eq_false_iff_not]
    omega

end ToolSim
